import Mathlib

/-!
Verification development for the GoldenMerchant arbitrage-discovery engine.

The Python source is shallowly embedded: symbols `BASE/QUOTE` become pairs of
strings, order books become lists of rational `(price, size)` levels, Python
floats become `ℚ`, and code that can raise an exception returns `Option`
(for `IndexError` / `ValueError` / `ZeroDivisionError` raised out of
`PriceData.calculate_arbitrage_routes`) or `Except Unit`
(for the `KeyError` reachable from `PriceDataGraph.find_cyclic_paths`).
Dictionaries are embedded as insertion-ordered association lists, matching
Python dict iteration order.
-/

namespace GoldenMerchant

/-- A trading symbol `BASE/QUOTE`, embedding the Python string `f"{base}/{quote}"`
(`symbol.split("/")` recovers the two components). -/
structure Symbol where
  base : String
  quote : String
deriving DecidableEq, Repr

/-- `f"{symbol.split('/')[1]}/{symbol.split('/')[0]}"` — the reversed pair. -/
def Symbol.reversed (s : Symbol) : Symbol := ⟨s.quote, s.base⟩

/-- An order book: `{"bids": [[price, amount], ...], "asks": [[price, amount], ...]}`. -/
structure Orderbook where
  bids : List (ℚ × ℚ)
  asks : List (ℚ × ℚ)
deriving DecidableEq, Repr

/-- One entry of the list returned by `PriceData.fetch_orderbooks`:
`[symbol, exchange_id, timestamp, {"bids": ..., "asks": ...}]`. -/
structure BookEntry where
  symbol : Symbol
  exchangeId : String
  timestamp : Int
  book : Orderbook
deriving DecidableEq, Repr

/-- The `"buy"` / `"sell"` action strings used by the evaluator. -/
inductive Action where
  | buy
  | sell
deriving DecidableEq, Repr

/-- One element of the `trades` list built by `calculate_arbitrage_routes`:
`{"symbol": ..., "exchange": ..., "action": ..., "price": ..., "amount": ...}`. -/
structure Trade where
  symbol : Symbol
  exchange : String
  action : Action
  price : ℚ
  amount : ℚ
deriving DecidableEq, Repr

/-- One element of `profitable_arbitrage_routes`:
`{"route": route, "profit": f"{profit:.2f} {currency}", "trades": trades}`.
The formatted profit string is embedded as the rounded rational value
(`profitRounded`) together with the display currency. -/
structure Opp where
  route : List Symbol
  profitRounded : ℚ
  currency : String
  trades : List Trade
deriving DecidableEq, Repr

/-- The 2-decimal-place rounding performed by `f"{profit:.2f}"`. -/
def roundTo2 (q : ℚ) : ℚ := (round (q * 100) : ℤ) / 100

/-- `PriceData.get_orderbook_price_and_amount` (src/main.py):
`orderbook["asks"][0]` on `"buy"`, `orderbook["bids"][0]` on `"sell"`;
`none` embeds the `IndexError` raised on an empty side. -/
def getOrderbookPriceAndAmount (book : Orderbook) : Action → Option (ℚ × ℚ)
  | .buy => book.asks.head?
  | .sell => book.bids.head?

/-- `PriceData.get_orderbook_price` (src/price_data.py): the reversed-pair-aware
price helper. For a reversed pair it returns `1 / orderbook["bids"][0][0]` on
`"buy"` and `orderbook["asks"][0][0]` on `"sell"`; otherwise the direct
top-of-book price for the action. -/
def getOrderbookPrice (book : Orderbook) (action : Action)
    (reversedPair : Bool) : Option ℚ :=
  if reversedPair then
    match action with
    | .buy => book.bids.head?.map (fun p => 1 / p.1)
    | .sell => book.asks.head?.map (fun p => p.1)
  else
    match action with
    | .buy => book.asks.head?.map (fun p => p.1)
    | .sell => book.bids.head?.map (fun p => p.1)

/-- `PriceData.get_reversed_symbols`. -/
def getReversedSymbols (symbols : List Symbol) : List Symbol :=
  symbols.map Symbol.reversed

universe u

/-- Each way of picking one element out of a list, paired with the remaining
list (remaining elements keep their relative order).  Helper for embedding
`itertools.permutations`. -/
def selections {α : Type u} : List α → List (α × List α)
  | [] => []
  | x :: xs => (x, xs) :: (selections xs).map (fun p => (p.1, x :: p.2))

/-- `itertools.permutations(l, n)`: all orderings of `n` elements of `l` taken
at distinct positions, in index-lexicographic order. -/
def arrangements {α : Type u} : Nat → List α → List (List α)
  | 0, _ => [[]]
  | n + 1, l =>
    (selections l).flatMap fun p => (arrangements n p.2).map (p.1 :: ·)

/-- The filter applied by `PriceData.get_all_routes` (src/main.py) to one
permutation: `symbols_permutation[i] != self.symbols[i]` for every position,
and `base == quote` where `base` is the first pair's base and `quote` the last
pair's quote.  (For the degenerate empty permutation the source raises
`IndexError`; here the head/last match fails and the route is discarded.) -/
def routePasses (symbols : List Symbol) (route : List Symbol) : Bool :=
  ((route.zip symbols).all fun p => p.1 != p.2) &&
    match route.head?, route.getLast? with
    | some f, some l => f.base == l.quote
    | _, _ => false

/-- `PriceData.get_all_routes` (src/main.py): permutations of length
`len(self.symbols)` drawn from `self.symbols + self.get_reversed_symbols()`,
kept when they differ from the original symbol at every position and the first
pair's base equals the last pair's quote. -/
def getAllRoutes (symbols : List Symbol) : List (List Symbol) :=
  let allSymbols := symbols ++ getReversedSymbols symbols
  (arrangements symbols.length allSymbols).filter (routePasses symbols)

/-- One iteration of the per-symbol loop in `calculate_arbitrage_routes`
(src/main.py lines 160-194): use the direct orderbook of the chosen exchange
when present (`buy` on even positions, `sell` on odd), otherwise the reversed
symbol's orderbook with flipped action; `none` embeds the `IndexError` raised
when the needed book or book side is missing. -/
def evalLeg (obs : List BookEntry) (ex : String) (i : Nat) (sym : Symbol) :
    Option Trade :=
  if (obs.filter (fun o => o.exchangeId == ex)).any (fun o => o.symbol == sym) then
    match (obs.filter (fun o => o.symbol == sym && o.exchangeId == ex)).head? with
    | none => none
    | some entry =>
      (getOrderbookPriceAndAmount entry.book
          (if i % 2 == 0 then Action.buy else Action.sell)).map
        (fun pa => ⟨sym, ex, if i % 2 == 0 then Action.buy else Action.sell,
          pa.1, pa.2⟩)
  else
    match (obs.filter (fun o => o.symbol == sym.reversed && o.exchangeId == ex)).head? with
    | none => none
    | some entry =>
      (getOrderbookPriceAndAmount entry.book
          (if i % 2 == 0 then Action.sell else Action.buy)).map
        (fun pa => ⟨sym.reversed, ex, if i % 2 == 0 then Action.sell else Action.buy,
          pa.1, pa.2⟩)

/-- The inner `for i, symbol in enumerate(route)` loop: evaluate every leg in
order, failing as soon as one leg raises. -/
def evalTrades (obs : List BookEntry) (ex : String) :
    List (Nat × Symbol) → Option (List Trade)
  | [] => some []
  | (i, s) :: rest =>
    match evalLeg obs ex i s with
    | none => none
    | some t => (evalTrades obs ex rest).map (t :: ·)

/-- The profit chaining loop (src/main.py lines 198-204): starting from
`min_trade_amount`, divide by the price on a buy and multiply on a sell;
`none` embeds the `ZeroDivisionError` on a zero buy price. -/
def profitFold : ℚ → List Trade → Option ℚ
  | acc, [] => some acc
  | acc, t :: rest =>
    match t.action with
    | .buy => if t.price = 0 then none else profitFold (acc / t.price) rest
    | .sell => profitFold (acc * t.price) rest

/-- `min_trade_amount` and `profit = total_profit - min_trade_amount`
(src/main.py lines 196-206); `none` embeds the `ValueError` of `min([])` and
the `ZeroDivisionError` of the chaining loop. -/
def tradesProfit (trades : List Trade) : Option ℚ :=
  match (trades.map (·.amount)).min? with
  | none => none
  | some m =>
    match profitFold m trades with
    | none => none
    | some total => some (total - m)

/-- Evaluation of one route: its trades and its (unrounded) profit. -/
def routeEval (obs : List BookEntry) (ex : String) (route : List Symbol) :
    Option (List Trade × ℚ) :=
  match evalTrades obs ex route.enum with
  | none => none
  | some trades =>
    match tradesProfit trades with
    | none => none
    | some p => some (trades, p)

/-- The `for route in routes` loop of `calculate_arbitrage_routes`: append an
opportunity exactly when the unrounded profit is `> 0`; the display value is
the 2-decimal rounding and the display currency is `route[-1].split("/")[1]`. -/
def loopRoutes (obs : List BookEntry) (ex : String) :
    List (List Symbol) → List Opp → Option (List Opp)
  | [], acc => some acc
  | route :: rest, acc =>
    match routeEval obs ex route, route.getLast? with
    | some tp, some lastSym =>
      loopRoutes obs ex rest
        (if 0 < tp.2 then
          acc ++ [⟨route, roundTo2 tp.2, lastSym.quote, tp.1⟩]
        else acc)
    | _, _ => none

/-- `PriceData.calculate_arbitrage_routes` (src/main.py lines 152-218),
parameterized by the declared symbols, the initialized exchange ids (in dict
order) and the fetched orderbooks.  `next(iter(self.exchanges.items()))` picks
the first exchange; `none` embeds any exception escaping the pass. -/
def calculateArbitrageRoutes (symbols : List Symbol) (exchangeIds : List String)
    (obs : List BookEntry) : Option (List Opp) :=
  match exchangeIds.head? with
  | none => none
  | some ex => loopRoutes obs ex (getAllRoutes symbols) []

/-- Every trade constructed by `evalLeg` carries the exchange id it was
called with. -/
theorem evalLeg_exchange {obs : List BookEntry} {ex : String} {i : Nat}
    {s : Symbol} {t : Trade} (h : evalLeg obs ex i s = some t) :
    t.exchange = ex := by
  unfold evalLeg at h
  split at h
  · split at h
    · exact Option.noConfusion h
    · simp only [Option.map_eq_some'] at h
      obtain ⟨pa, _, ht⟩ := h
      subst ht
      rfl
  · split at h
    · exact Option.noConfusion h
    · simp only [Option.map_eq_some'] at h
      obtain ⟨pa, _, ht⟩ := h
      subst ht
      rfl

/-- Every trade in a successfully evaluated leg list carries the chosen
exchange id. -/
theorem evalTrades_exchange {obs : List BookEntry} {ex : String} :
    ∀ {l : List (Nat × Symbol)} {ts : List Trade},
    evalTrades obs ex l = some ts → ∀ t ∈ ts, t.exchange = ex := by
  intro l
  induction l with
  | nil =>
    intro ts h t ht
    simp only [evalTrades, Option.some.injEq] at h
    subst h
    simp at ht
  | cons p rest ih =>
    intro ts h t ht
    rw [evalTrades] at h
    split at h
    · exact Option.noConfusion h
    · rename_i t0 ht0
      simp only [Option.map_eq_some'] at h
      obtain ⟨ts', hts', rfl⟩ := h
      rcases List.mem_cons.mp ht with rfl | hmem
      · exact evalLeg_exchange ht0
      · exact ih hts' t hmem

/-- What it means for an `Opp` to be one of the records appended by the
route loop: its route evaluates successfully, its unrounded profit is
strictly positive, and the stored fields are exactly the trades, the
2-decimal rounding of the profit, and the last pair's quote currency. -/
def Produced (obs : List BookEntry) (ex : String) (opp : Opp) : Prop :=
  ∃ tp, routeEval obs ex opp.route = some tp ∧ 0 < tp.2 ∧
    opp.trades = tp.1 ∧ opp.profitRounded = roundTo2 tp.2 ∧
    ∃ lastSym, opp.route.getLast? = some lastSym ∧ opp.currency = lastSym.quote

/-- Master specification of the `for route in routes` loop: the loop extends
the accumulator with records produced from the routes in enumeration order
(a sublist of the route list), every appended record is `Produced`, and every
route whose evaluation succeeds with positive profit contributes a record. -/
theorem loopRoutes_spec (obs : List BookEntry) (ex : String) :
    ∀ (routes : List (List Symbol)) (acc opps : List Opp),
    loopRoutes obs ex routes acc = some opps →
    ∃ newOpps, opps = acc ++ newOpps ∧
      List.Sublist (newOpps.map Opp.route) routes ∧
      (∀ opp ∈ newOpps, Produced obs ex opp) ∧
      (∀ route ∈ routes, ∀ tp, routeEval obs ex route = some tp → 0 < tp.2 →
        ∃ opp ∈ newOpps, opp.route = route) := by
  intro routes
  induction routes with
  | nil =>
    intro acc opps h
    simp only [loopRoutes, Option.some.injEq] at h
    subst h
    exact ⟨[], by simp, List.nil_sublist _, by simp, by simp⟩
  | cons route rest ih =>
    intro acc opps h
    rw [loopRoutes] at h
    split at h
    · rename_i tp lastSym heval hlast
      by_cases hp : 0 < tp.2
      · rw [if_pos hp] at h
        obtain ⟨newOpps, hopps, hsub, hprod, hcover⟩ := ih _ _ h
        refine ⟨⟨route, roundTo2 tp.2, lastSym.quote, tp.1⟩ :: newOpps, ?_, ?_, ?_, ?_⟩
        · rw [hopps, List.append_assoc, List.singleton_append]
        · exact List.Sublist.cons₂ _ hsub
        · intro opp hopp
          rcases List.mem_cons.mp hopp with rfl | hmem
          · exact ⟨tp, heval, hp, rfl, rfl, lastSym, hlast, rfl⟩
          · exact hprod opp hmem
        · intro r hr tp' heval' hp'
          rcases List.mem_cons.mp hr with rfl | hr'
          · exact ⟨_, List.mem_cons_self _ _, rfl⟩
          · obtain ⟨opp, h1, h2⟩ := hcover r hr' tp' heval' hp'
            exact ⟨opp, List.mem_cons_of_mem _ h1, h2⟩
      · rw [if_neg hp] at h
        obtain ⟨newOpps, hopps, hsub, hprod, hcover⟩ := ih _ _ h
        refine ⟨newOpps, hopps, List.Sublist.cons _ hsub, hprod, ?_⟩
        intro r hr tp' heval' hp'
        rcases List.mem_cons.mp hr with rfl | hr'
        · rw [heval] at heval'
          cases heval'
          exact absurd hp' hp
        · exact hcover r hr' tp' heval' hp'
    · exact absurd h (by simp)

/-- C1.  An Opportunity is produced for a route if and only if its unrounded
realized profit is strictly positive: every returned record's recomputed
profit `tp.2` is `> 0` (so the evaluator never returns an Opportunity with
`realized_profit <= 0`), the `> 0` comparison is on the unrounded value
`tp.2`, and the 2-decimal rounding `roundTo2` appears only in the stored
display field `profitRounded`, never in the inclusion decision. -/
theorem profit_filter_iff_positive (symbols : List Symbol)
    (exchangeIds : List String) (obs : List BookEntry) (ex : String)
    (opps : List Opp) (hex : exchangeIds.head? = some ex)
    (h : calculateArbitrageRoutes symbols exchangeIds obs = some opps) :
    (∀ opp ∈ opps, ∃ tp, routeEval obs ex opp.route = some tp ∧ 0 < tp.2 ∧
      opp.trades = tp.1 ∧ opp.profitRounded = roundTo2 tp.2) ∧
    (∀ route ∈ getAllRoutes symbols, ∀ tp, routeEval obs ex route = some tp →
      (0 < tp.2 ↔ ∃ opp ∈ opps, opp.route = route)) := by
  unfold calculateArbitrageRoutes at h
  rw [hex] at h
  obtain ⟨newOpps, hopps, _, hprod, hcover⟩ := loopRoutes_spec obs ex _ _ _ h
  rw [List.nil_append] at hopps
  subst hopps
  constructor
  · intro opp hopp
    obtain ⟨tp, h1, h2, h3, h4, _⟩ := hprod opp hopp
    exact ⟨tp, h1, h2, h3, h4⟩
  · intro route hroute tp heval
    constructor
    · intro hp
      exact hcover route hroute tp heval hp
    · rintro ⟨opp, hopp, rfl⟩
      obtain ⟨tp', h1, h2, _⟩ := hprod opp hopp
      rw [heval] at h1
      cases h1
      exact h2

/-- Demonstration inputs used by the concrete witnesses: two declared pairs
`A/B` and `C/D` on a single exchange `X`, with an `A/B` book whose best bid
is `3` and a `C/D` book whose best ask is `1/2`. -/
def demoSymbols : List Symbol := [⟨"A", "B"⟩, ⟨"C", "D"⟩]

/-- The orderbooks fetched for the demonstration instance. -/
def demoBooks : List BookEntry :=
  [⟨⟨"A", "B"⟩, "X", 0, ⟨[(3, 1)], []⟩⟩,
   ⟨⟨"C", "D"⟩, "X", 0, ⟨[], [(1/2, 1)]⟩⟩]

/-- The first opportunity returned on the demonstration instance
(route `C/D → D/C`, unrounded profit `3`). -/
def demoOppA : Opp :=
  ⟨[⟨"C", "D"⟩, ⟨"D", "C"⟩], 3, "C",
   [⟨⟨"C", "D"⟩, "X", .buy, 1/2, 1⟩, ⟨⟨"C", "D"⟩, "X", .buy, 1/2, 1⟩]⟩

/-- The second opportunity returned on the demonstration instance
(route `B/A → A/B`, unrounded profit `8`). -/
def demoOppB : Opp :=
  ⟨[⟨"B", "A"⟩, ⟨"A", "B"⟩], 8, "B",
   [⟨⟨"A", "B"⟩, "X", .sell, 3, 1⟩, ⟨⟨"A", "B"⟩, "X", .sell, 3, 1⟩]⟩

/-- Witness for C1: the hypotheses of `profit_filter_iff_positive` hold on the
demonstration instance and the conclusion follows by applying the theorem. -/
theorem profit_filter_iff_positive_witness :
    (["X"] : List String).head? = some "X" ∧
    calculateArbitrageRoutes demoSymbols ["X"] demoBooks =
      some [demoOppA, demoOppB] ∧
    ((∀ opp ∈ [demoOppA, demoOppB], ∃ tp,
        routeEval demoBooks "X" opp.route = some tp ∧ 0 < tp.2 ∧
        opp.trades = tp.1 ∧ opp.profitRounded = roundTo2 tp.2) ∧
      (∀ route ∈ getAllRoutes demoSymbols, ∀ tp,
        routeEval demoBooks "X" route = some tp →
        (0 < tp.2 ↔ ∃ opp ∈ [demoOppA, demoOppB], opp.route = route))) :=
  ⟨rfl, by with_unfolding_all decide,
    profit_filter_iff_positive demoSymbols ["X"] demoBooks "X"
      [demoOppA, demoOppB] rfl (by with_unfolding_all decide)⟩

/-- C5 counterexample: `calculate_arbitrage_routes` performs no sorting.  On
the demonstration instance it returns the opportunity with recomputed
realized profit `3` strictly before the one with realized profit `8`, so the
earlier entry's `realized_profit` is not `≥` the later one's. -/
theorem sorted_descending_counterexample :
    calculateArbitrageRoutes demoSymbols ["X"] demoBooks =
      some [demoOppA, demoOppB] ∧
    tradesProfit demoOppA.trades = some 3 ∧
    tradesProfit demoOppB.trades = some 8 ∧
    ¬((8 : ℚ) ≤ 3) :=
  ⟨by with_unfolding_all decide, by with_unfolding_all decide,
   by with_unfolding_all decide, by norm_num⟩

/-- C5 (amended).  The orchestrator does not sort: the Opportunities are
returned in route-enumeration order — the sequence of their routes is a
sublist of `get_all_routes`'s output — and descending order by
`realized_profit` can fail. -/
theorem orchestrator_enumeration_order (symbols : List Symbol)
    (exchangeIds : List String) (obs : List BookEntry) (opps : List Opp)
    (h : calculateArbitrageRoutes symbols exchangeIds obs = some opps) :
    List.Sublist (opps.map Opp.route) (getAllRoutes symbols) := by
  unfold calculateArbitrageRoutes at h
  cases hex : exchangeIds.head? with
  | none => rw [hex] at h; exact Option.noConfusion h
  | some ex =>
    rw [hex] at h
    obtain ⟨newOpps, hopps, hsub, _, _⟩ := loopRoutes_spec obs ex _ _ _ h
    rw [List.nil_append] at hopps
    subst hopps
    exact hsub

/-- Witness for the amended C5 theorem on the demonstration instance. -/
theorem orchestrator_enumeration_order_witness :
    calculateArbitrageRoutes demoSymbols ["X"] demoBooks =
      some [demoOppA, demoOppB] ∧
    List.Sublist ([demoOppA, demoOppB].map Opp.route) (getAllRoutes demoSymbols) :=
  ⟨by with_unfolding_all decide,
   orchestrator_enumeration_order demoSymbols ["X"] demoBooks
     [demoOppA, demoOppB] (by with_unfolding_all decide)⟩

/-- A batch holding only the reversed book `B/A` (best ask `2`, size `5`) on
exchange `X`; the route leg asks for the missing direct symbol `A/B`. -/
def reversedOnlyBooks : List BookEntry := [⟨⟨"B", "A"⟩, "X", 0, ⟨[], [(2, 5)]⟩⟩]

/-- C6 counterexample: for a leg whose direct symbol is missing but whose
reversed symbol exists, the evaluator flips the action (odd position `1`
would be a direct `sell`, and becomes a `buy`) but prices the leg with the
RAW reversed-book price `2` — not its inverse `1/2` as the claim states. -/
theorem reversed_leg_counterexample :
    ((reversedOnlyBooks.filter (fun o => o.exchangeId == "X")).any
      (fun o => o.symbol == (⟨"A", "B"⟩ : Symbol)) = false) ∧
    evalLeg reversedOnlyBooks "X" 1 ⟨"A", "B"⟩ =
      some ⟨⟨"B", "A"⟩, "X", .buy, 2, 5⟩ ∧
    ¬((2 : ℚ) = 1 / 2) :=
  ⟨by decide, by decide, by norm_num⟩

/-- C6 (amended).  When a route leg's direct symbol has no orderbook on the
chosen exchange but the reversed symbol does, the evaluator resolves the leg
via the reversed symbol with the action flipped (buy becomes sell and vice
versa) and uses the raw reversed-book top-of-book price for the flipped
action, without inverting it. -/
theorem reversed_leg_flips_action_raw_price (obs : List BookEntry)
    (ex : String) (i : Nat) (sym : Symbol) (entry : BookEntry)
    (hmiss : (obs.filter (fun o => o.exchangeId == ex)).any
      (fun o => o.symbol == sym) = false)
    (hfound : (obs.filter
        (fun o => o.symbol == sym.reversed && o.exchangeId == ex)).head?
      = some entry) :
    evalLeg obs ex i sym =
      (getOrderbookPriceAndAmount entry.book
          (if i % 2 == 0 then Action.sell else Action.buy)).map
        (fun pa => ⟨sym.reversed, ex,
          if i % 2 == 0 then Action.sell else Action.buy, pa.1, pa.2⟩) := by
  unfold evalLeg
  rw [if_neg (by simp [hmiss]), hfound]

/-- Witness for the amended C6 theorem: the odd-position leg for missing
`A/B` resolves to a `buy` of `B/A` at the raw ask price `2`. -/
theorem reversed_leg_flips_action_raw_price_witness :
    ((reversedOnlyBooks.filter (fun o => o.exchangeId == "X")).any
      (fun o => o.symbol == (⟨"A", "B"⟩ : Symbol)) = false) ∧
    ((reversedOnlyBooks.filter
        (fun o => o.symbol == (Symbol.reversed ⟨"A", "B"⟩) && o.exchangeId == "X")).head?
      = some ⟨⟨"B", "A"⟩, "X", 0, ⟨[], [(2, 5)]⟩⟩) ∧
    evalLeg reversedOnlyBooks "X" 1 ⟨"A", "B"⟩ =
      (getOrderbookPriceAndAmount (⟨[], [(2, 5)]⟩ : Orderbook)
          (if 1 % 2 == 0 then Action.sell else Action.buy)).map
        (fun pa => ⟨Symbol.reversed ⟨"A", "B"⟩, "X",
          if 1 % 2 == 0 then Action.sell else Action.buy, pa.1, pa.2⟩) :=
  ⟨by decide, by decide,
   reversed_leg_flips_action_raw_price reversedOnlyBooks "X" 1 ⟨"A", "B"⟩
     ⟨⟨"B", "A"⟩, "X", 0, ⟨[], [(2, 5)]⟩⟩ (by decide) (by decide)⟩

/-- Filtering a batch to one exchange id is idempotent. -/
theorem filter_exchange_idem (obs : List BookEntry) (ex : String) :
    (obs.filter (fun o => o.exchangeId == ex)).filter (fun o => o.exchangeId == ex)
      = obs.filter (fun o => o.exchangeId == ex) := by
  rw [List.filter_filter]
  exact List.filter_congr (fun a _ => by cases h : a.exchangeId == ex <;> simp [h])

/-- The per-symbol book lookup already restricts to the chosen exchange, so
pre-filtering the batch to that exchange does not change it. -/
theorem filter_symbol_exchange (obs : List BookEntry) (ex : String) (s : Symbol) :
    (obs.filter (fun o => o.exchangeId == ex)).filter
        (fun o => o.symbol == s && o.exchangeId == ex)
      = obs.filter (fun o => o.symbol == s && o.exchangeId == ex) := by
  rw [List.filter_filter]
  exact List.filter_congr (fun a _ => by
    cases h1 : a.symbol == s <;> cases h2 : a.exchangeId == ex <;> simp [h1, h2])

/-- A leg evaluation only consults books of the chosen exchange. -/
theorem evalLeg_filter (obs : List BookEntry) (ex : String) (i : Nat)
    (sym : Symbol) :
    evalLeg (obs.filter (fun o => o.exchangeId == ex)) ex i sym
      = evalLeg obs ex i sym := by
  unfold evalLeg
  rw [filter_exchange_idem, filter_symbol_exchange, filter_symbol_exchange]

/-- Trade-list evaluation only consults books of the chosen exchange. -/
theorem evalTrades_filter (obs : List BookEntry) (ex : String) :
    ∀ l, evalTrades (obs.filter (fun o => o.exchangeId == ex)) ex l
      = evalTrades obs ex l := by
  intro l
  induction l with
  | nil => rfl
  | cons p rest ih =>
    obtain ⟨i, s⟩ := p
    rw [evalTrades, evalTrades, evalLeg_filter, ih]

/-- Route evaluation only consults books of the chosen exchange. -/
theorem routeEval_filter (obs : List BookEntry) (ex : String)
    (route : List Symbol) :
    routeEval (obs.filter (fun o => o.exchangeId == ex)) ex route
      = routeEval obs ex route := by
  unfold routeEval
  rw [evalTrades_filter]

/-- The route loop only consults books of the chosen exchange. -/
theorem loopRoutes_filter (obs : List BookEntry) (ex : String) :
    ∀ (routes : List (List Symbol)) (acc : List Opp),
    loopRoutes (obs.filter (fun o => o.exchangeId == ex)) ex routes acc
      = loopRoutes obs ex routes acc := by
  intro routes
  induction routes with
  | nil => intro acc; rfl
  | cons route rest ih =>
    intro acc
    cases hr : routeEval obs ex route with
    | none => simp [loopRoutes, routeEval_filter, hr]
    | some tp =>
      cases hl : route.getLast? with
      | none => simp [loopRoutes, routeEval_filter, hr, hl]
      | some lastSym => simp [loopRoutes, routeEval_filter, hr, hl, ih]

/-- The whole discovery pass is unchanged by restricting the batch to the
first exchange's books. -/
theorem calculateArbitrageRoutes_filter (symbols : List Symbol)
    (exchangeIds : List String) (obs : List BookEntry) (ex : String)
    (hex : exchangeIds.head? = some ex) :
    calculateArbitrageRoutes symbols exchangeIds
        (obs.filter (fun o => o.exchangeId == ex))
      = calculateArbitrageRoutes symbols exchangeIds obs := by
  unfold calculateArbitrageRoutes
  rw [hex]
  exact loopRoutes_filter obs ex _ _

/-- C10.  Every trade leg of every returned opportunity carries the first
exchange id of the instance's exchanges mapping, and the result is unchanged
when the batch is restricted to that exchange's orderbooks — books of other
configured exchanges are never used to price a leg. -/
theorem single_exchange_only (symbols : List Symbol)
    (exchangeIds : List String) (obs : List BookEntry) (ex : String)
    (opps : List Opp) (hex : exchangeIds.head? = some ex)
    (h : calculateArbitrageRoutes symbols exchangeIds obs = some opps) :
    (∀ opp ∈ opps, ∀ t ∈ opp.trades, t.exchange = ex) ∧
    calculateArbitrageRoutes symbols exchangeIds
      (obs.filter (fun o => o.exchangeId == ex)) = some opps := by
  constructor
  · unfold calculateArbitrageRoutes at h
    rw [hex] at h
    obtain ⟨newOpps, hopps, _, hprod, _⟩ := loopRoutes_spec obs ex _ _ _ h
    rw [List.nil_append] at hopps
    subst hopps
    intro opp hopp t ht
    obtain ⟨tp, heval, _, htr, _⟩ := hprod opp hopp
    unfold routeEval at heval
    cases het : evalTrades obs ex opp.route.enum with
    | none => rw [het] at heval; exact Option.noConfusion heval
    | some trades =>
      rw [het] at heval
      dsimp only at heval
      cases hpr : tradesProfit trades with
      | none => rw [hpr] at heval; exact Option.noConfusion heval
      | some p =>
        rw [hpr] at heval
        cases heval
        exact evalTrades_exchange het t (by rw [htr] at ht; exact ht)
  · rw [calculateArbitrageRoutes_filter symbols exchangeIds obs ex hex]
    exact h

/-- Witness for C10 on the demonstration instance. -/
theorem single_exchange_only_witness :
    (["X"] : List String).head? = some "X" ∧
    calculateArbitrageRoutes demoSymbols ["X"] demoBooks =
      some [demoOppA, demoOppB] ∧
    ((∀ opp ∈ [demoOppA, demoOppB], ∀ t ∈ opp.trades, t.exchange = "X") ∧
      calculateArbitrageRoutes demoSymbols ["X"]
        (demoBooks.filter (fun o => o.exchangeId == "X")) =
        some [demoOppA, demoOppB]) :=
  ⟨rfl, by with_unfolding_all decide,
   single_exchange_only demoSymbols ["X"] demoBooks "X" [demoOppA, demoOppB]
     rfl (by with_unfolding_all decide)⟩

/-- The `"bid"` / `"ask"` type tag of a graph edge. -/
inductive Side where
  | bid
  | ask
deriving DecidableEq, Repr

/-- One trade entry appended to the graph by `PriceDataGraph.build_graph`:
`{"exchange": ..., "rate": ±log(price), "amount": ..., "type": ..., "price": ...}`.
The transcendental `rate` field (`math.log`) is not representable in `ℚ` and is
read by no downstream code; it is embedded through its domain condition only —
`math.log` raises `ValueError` exactly when the adjusted price is `≤ 0`, which
the builder model reflects by omitting the corresponding edge append. -/
structure GEdge where
  exchange : String
  amount : ℚ
  side : Side
  price : ℚ
deriving DecidableEq, Repr

/-- The inner dict `graph[currency] : Dict[str, List[trade]]` as an
insertion-ordered association list. -/
abbrev Adj := List (String × List GEdge)

/-- The graph `Dict[str, Dict[str, List[trade]]]` of `PriceDataGraph`. -/
abbrev Graph := List (String × Adj)

/-- Python `graph[currency]`: `some` the inner dict, `none` = `KeyError`. -/
def lookupA (g : Graph) (c : String) : Option Adj :=
  (g.find? (fun p => p.1 == c)).map (·.2)

/-- `if key not in graph: graph[key] = {}` (insertion at the end). -/
def gSetNode (g : Graph) (k : String) : Graph :=
  if g.any (fun p => p.1 == k) then g else g ++ [(k, [])]

/-- `if b not in graph[a]: graph[a][b] = []`. -/
def gSetInner (g : Graph) (a b : String) : Graph :=
  g.map (fun p =>
    if p.1 == a then
      (p.1, if p.2.any (fun q => q.1 == b) then p.2 else p.2 ++ [(b, [])])
    else p)

/-- `graph[a][b].append(e)`. -/
def gAppendEdge (g : Graph) (a b : String) (e : GEdge) : Graph :=
  g.map (fun p =>
    if p.1 == a then
      (p.1, p.2.map (fun q => if q.1 == b then (q.1, q.2 ++ [e]) else q))
    else p)

/-- An order-book snapshot consumed by the builder: one successfully fetched
`(exchange_id, symbol)` pair of the `self.exchange_symbols` product (a failed
fetch is caught and skipped, i.e. simply absent from this list). -/
structure Snapshot where
  exchangeId : String
  symbol : Symbol
  book : Orderbook
deriving DecidableEq, Repr

/-- `sum([x[1] for x in levels])` — the aggregate size of a side. -/
def totalSize (levels : List (ℚ × ℚ)) : ℚ := (levels.map (·.2)).sum

/-- `sum([x[0] * x[1] for x in levels]) / sum([x[1] for x in levels])` — the
size-weighted average price of a side (src/graph.py lines 77-82). -/
def weightedAvg (levels : List (ℚ × ℚ)) : ℚ :=
  (levels.map (fun l => l.1 * l.2)).sum / totalSize levels

/-- The consolidated, fee- and slippage-adjusted bid price
(src/graph.py lines 71-86): `bid_price *= 1 + transaction_fee;
bid_price *= 1 - slippage` on the weighted average of the top `n_best` bids. -/
def bidEffectivePrice (bids : List (ℚ × ℚ)) (nBest : Nat) (fee slip : ℚ) : ℚ :=
  weightedAvg (bids.take nBest) * (1 + fee) * (1 - slip)

/-- The consolidated, fee- and slippage-adjusted ask price
(src/graph.py lines 72-88): `ask_price *= 1 - transaction_fee;
ask_price *= 1 + slippage` on the weighted average of the top `n_best` asks. -/
def askEffectivePrice (asks : List (ℚ × ℚ)) (nBest : Nat) (fee slip : ℚ) : ℚ :=
  weightedAvg (asks.take nBest) * (1 - fee) * (1 + slip)

/-- Processing of one snapshot by `PriceDataGraph.build_graph`
(src/graph.py lines 69-128), with Python's exception flow made explicit:
a zero aggregate size on either truncated side raises `ZeroDivisionError`
before any mutation (whole snapshot skipped); node keys and empty inner lists
are created before the edge appends; `-math.log(bid_price)` is evaluated in
the bid append, so a non-positive bid price aborts before either edge is
appended, and a non-positive ask price aborts after the bid edge only.
Every raised exception is caught by the `except` clause, so the fold
continues with the graph as mutated so far. -/
def processSnapshot (nBest : Nat) (fee slip : ℚ) (g : Graph) (sn : Snapshot) :
    Graph :=
  if totalSize (sn.book.bids.take nBest) = 0 ∨
      totalSize (sn.book.asks.take nBest) = 0 then g
  else
    let g1 := gSetInner
      (gSetInner (gSetNode (gSetNode g sn.symbol.base) sn.symbol.quote)
        sn.symbol.base sn.symbol.quote)
      sn.symbol.quote sn.symbol.base
    if bidEffectivePrice sn.book.bids nBest fee slip ≤ 0 then g1
    else
      let g2 := gAppendEdge g1 sn.symbol.base sn.symbol.quote
        ⟨sn.exchangeId, totalSize (sn.book.bids.take nBest), Side.bid,
          bidEffectivePrice sn.book.bids nBest fee slip⟩
      if askEffectivePrice sn.book.asks nBest fee slip ≤ 0 then g2
      else gAppendEdge g2 sn.symbol.quote sn.symbol.base
        ⟨sn.exchangeId, totalSize (sn.book.asks.take nBest), Side.ask,
          askEffectivePrice sn.book.asks nBest fee slip⟩

/-- `PriceDataGraph.build_graph`: fold over the fetched snapshots in
`exchange_symbols` order, starting from the empty dict. -/
def buildGraph (snaps : List Snapshot) (nBest : Nat) (fee slip : ℚ) : Graph :=
  snaps.foldl (processSnapshot nBest fee slip) []

/-- One element of a path returned by `find_cyclic_paths`:
`{"source_currency": ..., "destination_currency": ..., **trade}`. -/
structure PathStep where
  sourceCurrency : String
  destinationCurrency : String
  edge : GEdge
deriving DecidableEq, Repr

/-- The `for trade in trades` loop of the DFS over one adjacency entry
(src/graph.py lines 150-165): emit the extended path when the destination is
the start currency, recurse (via the parameter `f`, the depth-reduced DFS)
when the destination is unvisited, skip otherwise.  Results are concatenated
in iteration order, matching the shared `paths` accumulator. -/
def trLoop (f : String → List PathStep → List String →
      Except Unit (List (List PathStep)))
    (s c next : String) (path : List PathStep) (vis : List String) :
    List GEdge → Except Unit (List (List PathStep))
  | [] => .ok []
  | tr :: rest =>
    match (if next == s then Except.ok [path ++ [⟨c, next, tr⟩]]
           else if vis.contains next then Except.ok []
           else f next (path ++ [⟨c, next, tr⟩]) (vis ++ [next])) with
    | .error e => .error e
    | .ok out1 =>
      match trLoop f s c next path vis rest with
      | .error e => .error e
      | .ok out2 => .ok (out1 ++ out2)

/-- The `for next_currency, trades in self.graph[currency].items()` loop. -/
def adjLoop (f : String → List PathStep → List String →
      Except Unit (List (List PathStep)))
    (s c : String) (path : List PathStep) (vis : List String) :
    Adj → Except Unit (List (List PathStep))
  | [] => .ok []
  | (next, trades) :: rest =>
    match trLoop f s c next path vis trades with
    | .error e => .error e
    | .ok out1 =>
      match adjLoop f s c path vis rest with
      | .error e => .error e
      | .ok out2 => .ok (out1 ++ out2)

/-- The recursive `dfs(currency, current_path, depth)` of
`PriceDataGraph.find_cyclic_paths`: return on exhausted depth, otherwise
iterate `self.graph[currency]` (whose `KeyError`, when `currency` has no
node, is the `.error` case and propagates out of the search). -/
def dfs (g : Graph) (s : String) :
    Nat → String → List PathStep → List String →
      Except Unit (List (List PathStep))
  | 0, _, _, _ => .ok []
  | d + 1, c, path, vis =>
    match lookupA g c with
    | none => .error ()
    | some adj => adjLoop (dfs g s d) s c path vis adj

/-- `PriceDataGraph.find_cyclic_paths(start_currency, max_depth)`:
`visited = set([start_currency]); dfs(start_currency, [], max_depth)`. -/
def findCyclicPaths (g : Graph) (s : String) (maxDepth : Nat) :
    Except Unit (List (List PathStep)) :=
  dfs g s maxDepth s [] [s]

/-- The destination currencies of a path, in order. -/
def dests (path : List PathStep) : List String :=
  path.map (·.destinationCurrency)

/-- A path chains from currency `c`: each step starts where the previous one
ended. -/
def chainB (c : String) : List PathStep → Bool
  | [] => true
  | st :: rest => (st.sourceCurrency == c) && chainB st.destinationCurrency rest

/-- The currency a path ends at (`s` for the empty path rooted at `s`). -/
def pathEnd (s : String) (path : List PathStep) : String :=
  match path.getLast? with
  | none => s
  | some st => st.destinationCurrency

/-- C4 counterexample: with the fixed one-level bid ladder `[(100, 1)]`,
`n_best = 1` and zero slippage, raising `fee_rate` from `0` to `1/10`
(both in `[0, 1)`) strictly increases the computed bid `effective_price`
from `100` to `110`, contradicting the claimed direction for `fee_rate`. -/
theorem fee_monotonicity_counterexample :
    (0 : ℚ) ≤ 0 ∧ (0 : ℚ) ≤ 1 / 10 ∧ (1 / 10 : ℚ) < 1 ∧
    bidEffectivePrice [(100, 1)] 1 0 0 <
      bidEffectivePrice [(100, 1)] 1 (1 / 10) 0 :=
  ⟨le_refl 0, by norm_num, by norm_num, by with_unfolding_all decide⟩

/-- C4 (amended).  For a fixed snapshot and `n_best`, increasing
`slippage_rate` never increases the bid `effective_price` and never decreases
the ask `effective_price` (as claimed), but the `fee_rate` direction is
reversed: increasing `fee_rate` never DECREASES the bid `effective_price`
(it is inflated by `1 + fee`) and never INCREASES the ask `effective_price`
(deflated by `1 - fee`). -/
theorem price_adjustment_monotonicity (bids asks : List (ℚ × ℚ)) (nBest : Nat)
    (fee fee' slip slip' : ℚ)
    (hb : 0 ≤ weightedAvg (bids.take nBest))
    (ha : 0 ≤ weightedAvg (asks.take nBest))
    (hf0 : 0 ≤ fee) (hff : fee ≤ fee') (hf1 : fee' < 1)
    (hs0 : 0 ≤ slip) (hss : slip ≤ slip') (hs1 : slip' < 1) :
    bidEffectivePrice bids nBest fee slip' ≤ bidEffectivePrice bids nBest fee slip ∧
    askEffectivePrice asks nBest fee slip ≤ askEffectivePrice asks nBest fee slip' ∧
    bidEffectivePrice bids nBest fee slip ≤ bidEffectivePrice bids nBest fee' slip ∧
    askEffectivePrice asks nBest fee' slip ≤ askEffectivePrice asks nBest fee slip := by
  unfold bidEffectivePrice askEffectivePrice
  refine ⟨?_, ?_, ?_, ?_⟩
  · exact mul_le_mul_of_nonneg_left (by linarith)
      (mul_nonneg hb (by linarith))
  · exact mul_le_mul_of_nonneg_left (by linarith)
      (mul_nonneg ha (by linarith))
  · exact mul_le_mul_of_nonneg_right
      (mul_le_mul_of_nonneg_left (by linarith) hb) (by linarith)
  · exact mul_le_mul_of_nonneg_right
      (mul_le_mul_of_nonneg_left (by linarith) ha) (by linarith)

/-- Witness for the amended C4 theorem at a concrete ladder and rates. -/
theorem price_adjustment_monotonicity_witness :
    (0 : ℚ) ≤ weightedAvg (([(100, 1)] : List (ℚ × ℚ)).take 1) ∧
    (0 : ℚ) ≤ weightedAvg (([(50, 2)] : List (ℚ × ℚ)).take 1) ∧
    (0 : ℚ) ≤ 0 ∧ (0 : ℚ) ≤ 1 / 10 ∧ (1 / 10 : ℚ) < 1 ∧
    (0 : ℚ) ≤ 0 ∧ (0 : ℚ) ≤ 1 / 5 ∧ (1 / 5 : ℚ) < 1 ∧
    (bidEffectivePrice [(100, 1)] 1 0 (1 / 5) ≤ bidEffectivePrice [(100, 1)] 1 0 0 ∧
      askEffectivePrice [(50, 2)] 1 0 0 ≤ askEffectivePrice [(50, 2)] 1 0 (1 / 5) ∧
      bidEffectivePrice [(100, 1)] 1 0 0 ≤ bidEffectivePrice [(100, 1)] 1 (1 / 10) 0 ∧
      askEffectivePrice [(50, 2)] 1 (1 / 10) 0 ≤ askEffectivePrice [(50, 2)] 1 0 0) :=
  ⟨by with_unfolding_all decide, by with_unfolding_all decide,
   le_refl 0, by norm_num, by norm_num, le_refl 0, by norm_num, by norm_num,
   price_adjustment_monotonicity [(100, 1)] [(50, 2)] 1 0 (1 / 10) 0 (1 / 5)
     (by with_unfolding_all decide) (by with_unfolding_all decide)
     (le_refl 0) (by norm_num) (by norm_num)
     (le_refl 0) (by norm_num) (by norm_num)⟩

/-- A snapshot whose bids sequence is empty while its asks side has positive
size — the concrete scenario of C7. -/
def emptyBidsSnap : Snapshot := ⟨"X", ⟨"A", "B"⟩, ⟨[], [(10, 1)]⟩⟩

/-- C7 counterexample: on a snapshot with empty bids and a non-empty positive
ask side, `build_graph` produces the EMPTY graph — the ask edge is NOT
added, because the `ZeroDivisionError` from the bid consolidation is raised
before any mutation and the `except` clause skips the whole snapshot. -/
theorem empty_bids_counterexample :
    emptyBidsSnap.book.bids = [] ∧
    totalSize (emptyBidsSnap.book.asks.take 1) = 1 ∧
    buildGraph [emptyBidsSnap] 1 0 0 = [] :=
  ⟨rfl, by with_unfolding_all decide, by with_unfolding_all decide⟩

/-- C7 (amended).  A snapshot with zero aggregate size on either truncated
side is skipped as a whole — neither the bid nor the ask edge is added, the
graph is left unchanged, and no exception escapes the build (the
`ZeroDivisionError` is raised before any graph mutation and caught). -/
theorem zero_size_side_skips_snapshot (nBest : Nat) (fee slip : ℚ)
    (g : Graph) (sn : Snapshot)
    (h : totalSize (sn.book.bids.take nBest) = 0 ∨
      totalSize (sn.book.asks.take nBest) = 0) :
    processSnapshot nBest fee slip g sn = g := by
  unfold processSnapshot
  rw [if_pos h]

/-- Witness for the amended C7 theorem on the empty-bids snapshot. -/
theorem zero_size_side_skips_snapshot_witness :
    (totalSize (emptyBidsSnap.book.bids.take 1) = 0 ∨
      totalSize (emptyBidsSnap.book.asks.take 1) = 0) ∧
    processSnapshot 1 0 0 [] emptyBidsSnap = [] :=
  ⟨Or.inl (by with_unfolding_all decide),
   zero_size_side_skips_snapshot 1 0 0 [] emptyBidsSnap
     (Or.inl (by with_unfolding_all decide))⟩

/-- A side is sorted best-first for bids: prices non-increasing. -/
def sortedDescB : List (ℚ × ℚ) → Bool
  | [] => true
  | [_] => true
  | a :: b :: rest => decide (b.1 ≤ a.1) && sortedDescB (b :: rest)

/-- A side is sorted best-first for asks: prices non-decreasing. -/
def sortedAscB : List (ℚ × ℚ) → Bool
  | [] => true
  | [_] => true
  | a :: b :: rest => decide (a.1 ≤ b.1) && sortedAscB (b :: rest)

/-- Modelled from the spec: the snapshot well-formedness that §4.1 says the
snapshot model must enforce (bid/ask levels sorted best-first, all prices and
sizes strictly positive).  No such validation exists anywhere in the source;
this definition exists only to state what the claim requires. -/
def specWellFormedSnapshot (sn : Snapshot) : Bool :=
  sortedDescB sn.book.bids && sortedAscB sn.book.asks &&
    (sn.book.bids ++ sn.book.asks).all (fun l => decide (0 < l.1) && decide (0 < l.2))

/-- A malformed snapshot: bids `[(1,1), (5,1)]` are not sorted best-first. -/
def unsortedSnap : Snapshot := ⟨"X", ⟨"A", "B"⟩, ⟨[(1, 1), (5, 1)], [(2, 1)]⟩⟩

/-- C8 counterexample: the malformed (unsorted-bids) snapshot is NOT rejected
or dropped — `build_graph` consumes it and adds both of its edges (bid price
`3` = the weighted average of the unsorted levels, ask price `2`). -/
theorem malformed_snapshot_not_dropped :
    specWellFormedSnapshot unsortedSnap = false ∧
    buildGraph [unsortedSnap] 2 0 0 =
      [("A", [("B", [⟨"X", 2, Side.bid, 3⟩])]),
       ("B", [("A", [⟨"X", 1, Side.ask, 2⟩])])] :=
  ⟨by with_unfolding_all decide, by with_unfolding_all decide⟩

/-- C8 (amended).  The source performs no snapshot validation: any snapshot
whose truncated sides have nonzero aggregate size and positive adjusted
prices contributes both of its edges to the graph, with no precondition on
sortedness or on the sign of individual price/size levels; only a zero-size
or non-positive-price side causes (partial) skipping, via caught
`ZeroDivisionError` / `math.log` domain exceptions. -/
theorem no_snapshot_validation (nBest : Nat) (fee slip : ℚ) (sn : Snapshot)
    (hb : totalSize (sn.book.bids.take nBest) ≠ 0)
    (ha : totalSize (sn.book.asks.take nBest) ≠ 0)
    (hbp : 0 < bidEffectivePrice sn.book.bids nBest fee slip)
    (hap : 0 < askEffectivePrice sn.book.asks nBest fee slip)
    (hbq : sn.symbol.base ≠ sn.symbol.quote) :
    processSnapshot nBest fee slip [] sn =
      [(sn.symbol.base,
        [(sn.symbol.quote,
          [⟨sn.exchangeId, totalSize (sn.book.bids.take nBest), Side.bid,
            bidEffectivePrice sn.book.bids nBest fee slip⟩])]),
       (sn.symbol.quote,
        [(sn.symbol.base,
          [⟨sn.exchangeId, totalSize (sn.book.asks.take nBest), Side.ask,
            askEffectivePrice sn.book.asks nBest fee slip⟩])])] := by
  have h1 : (sn.symbol.base == sn.symbol.quote) = false := by
    simpa using hbq
  have h2 : (sn.symbol.quote == sn.symbol.base) = false := by
    simpa using (Ne.symm hbq)
  unfold processSnapshot
  rw [if_neg (by push_neg; exact ⟨hb, ha⟩)]
  rw [if_neg (not_le.mpr hbp), if_neg (not_le.mpr hap)]
  simp [gSetNode, gSetInner, gAppendEdge, h1, h2, hbq, Ne.symm hbq]

/-- Witness for the amended C8 theorem: the malformed snapshot satisfies the
hypotheses and contributes both edges. -/
theorem no_snapshot_validation_witness :
    totalSize (unsortedSnap.book.bids.take 2) ≠ 0 ∧
    totalSize (unsortedSnap.book.asks.take 2) ≠ 0 ∧
    0 < bidEffectivePrice unsortedSnap.book.bids 2 0 0 ∧
    0 < askEffectivePrice unsortedSnap.book.asks 2 0 0 ∧
    unsortedSnap.symbol.base ≠ unsortedSnap.symbol.quote ∧
    processSnapshot 2 0 0 [] unsortedSnap =
      [(unsortedSnap.symbol.base,
        [(unsortedSnap.symbol.quote,
          [⟨unsortedSnap.exchangeId, totalSize (unsortedSnap.book.bids.take 2),
            Side.bid, bidEffectivePrice unsortedSnap.book.bids 2 0 0⟩])]),
       (unsortedSnap.symbol.quote,
        [(unsortedSnap.symbol.base,
          [⟨unsortedSnap.exchangeId, totalSize (unsortedSnap.book.asks.take 2),
            Side.ask, askEffectivePrice unsortedSnap.book.asks 2 0 0⟩])])] :=
  ⟨by with_unfolding_all decide, by with_unfolding_all decide,
   by with_unfolding_all decide, by with_unfolding_all decide,
   by decide,
   no_snapshot_validation 2 0 0 unsortedSnap
     (by with_unfolding_all decide) (by with_unfolding_all decide)
     (by with_unfolding_all decide) (by with_unfolding_all decide)
     (by decide)⟩

/-- The snapshot batch behind the small demonstration graph. -/
def demoSnapshots : List Snapshot := [⟨"X", ⟨"A", "B"⟩, ⟨[(2, 1)], [(3, 1)]⟩⟩]

/-- The two-node graph `A ⇄ B` built from `demoSnapshots`. -/
def demoGraph : Graph := buildGraph demoSnapshots 1 0 0

/-- C9 counterexample: absence is NOT always treated as "no route through
here".  Calling the cycle enumerator with a start currency that has no node
raises `KeyError` (the `.error` result), and an evaluator leg whose direct
and reversed orderbooks are both missing raises `IndexError`, aborting the
whole pass (`none`), instead of contributing no routes. -/
theorem missing_treated_as_error_counterexample :
    lookupA demoGraph "Z" = none ∧
    findCyclicPaths demoGraph "Z" 5 = .error () ∧
    evalLeg [] "X" 0 ⟨"A", "B"⟩ = none ∧
    calculateArbitrageRoutes demoSymbols ["X"] [] = none :=
  ⟨by with_unfolding_all rfl, by with_unfolding_all rfl, rfl,
   by with_unfolding_all rfl⟩

/-- The destination list distributes over appending a step. -/
theorem dests_append (path : List PathStep) (st : PathStep) :
    dests (path ++ [st]) = dests path ++ [st.destinationCurrency] := by
  simp [dests]

/-- The root of `pathEnd` shifts to the head's destination. -/
theorem pathEnd_cons (s : String) (hd : PathStep) (tl : List PathStep) :
    pathEnd s (hd :: tl) = pathEnd hd.destinationCurrency tl := by
  cases tl with
  | nil => rfl
  | cons x xs =>
    rw [pathEnd, pathEnd, List.getLast?_cons_cons]
    cases hl : (x :: xs).getLast? with
    | none => simp at hl
    | some st => rfl

/-- A path extended by one step ends at that step's destination. -/
theorem pathEnd_append_single (s : String) (path : List PathStep)
    (st : PathStep) :
    pathEnd s (path ++ [st]) = st.destinationCurrency := by
  simp [pathEnd, List.getLast?_concat]

/-- Appending a step whose source is the path's end keeps the path chained. -/
theorem chainB_append_single {s : String} {path : List PathStep} (st : PathStep)
    (hc : chainB s path = true) (hsrc : st.sourceCurrency = pathEnd s path) :
    chainB s (path ++ [st]) = true := by
  induction path generalizing s with
  | nil =>
    simp [pathEnd] at hsrc
    simp [chainB, hsrc]
  | cons hd tl ih =>
    rw [List.cons_append, chainB]
    rw [chainB] at hc
    simp only [Bool.and_eq_true] at hc ⊢
    exact ⟨hc.1, ih hc.2 (hsrc.trans (pathEnd_cons s hd tl))⟩

/-- What the DFS guarantees about every emitted cycle, relative to the state
it was called in: the cycle strictly extends the current path by at most the
remaining depth budget, it chains from the start currency, it ends back at
the start currency, and its intermediate destinations are distinct and never
the start currency. -/
def GoodExt (s : String) (path : List PathStep) (d : Nat)
    (q : List PathStep) : Prop :=
  (∃ ext, q = path ++ ext ∧ ext ≠ []) ∧ q.length ≤ path.length + d ∧
  chainB s q = true ∧ (dests q).getLast? = some s ∧
  ((dests q).dropLast).Nodup ∧ s ∉ (dests q).dropLast

/-- The DFS call-state invariant: `visited` is exactly the start currency
followed by the path's destinations, it has no duplicates, the current path
chains from the start, and it ends at the current currency. -/
def StateInv (s c : String) (path : List PathStep)
    (vis : List String) : Prop :=
  vis = s :: dests path ∧ vis.Nodup ∧ chainB s path = true ∧
    pathEnd s path = c

/-- Emitted-cycle properties are preserved when re-rooting one step up (with
one more unit of depth budget). -/
theorem GoodExt.weaken {s : String} {path : List PathStep} {st : PathStep}
    {d : Nat} {q : List PathStep} (h : GoodExt s (path ++ [st]) d q) :
    GoodExt s path (d + 1) q := by
  obtain ⟨⟨ext, hq, hne⟩, hlen, hrest⟩ := h
  refine ⟨⟨st :: ext, by simpa using hq, by simp⟩, ?_, hrest⟩
  simp only [List.length_append, List.length_singleton] at hlen
  omega

/-- Every path emitted by the inner trade loop satisfies `GoodExt` for the
loop's call state, provided recursive calls do so for the extended state. -/
theorem trLoop_good
    (f : String → List PathStep → List String → Except Unit (List (List PathStep)))
    (s c next : String) (path : List PathStep) (vis : List String) (d : Nat)
    (hInv : StateInv s c path vis)
    (hf : ∀ tr out q, (next == s) = false → vis.contains next = false →
      f next (path ++ [⟨c, next, tr⟩]) (vis ++ [next]) = .ok out → q ∈ out →
      GoodExt s (path ++ [⟨c, next, tr⟩]) d q) :
    ∀ (l : List GEdge) (out : List (List PathStep)) (q : List PathStep),
      trLoop f s c next path vis l = .ok out → q ∈ out →
      GoodExt s path (d + 1) q := by
  intro l
  induction l with
  | nil =>
    intro out q h hq
    rw [trLoop] at h
    cases h
    exact absurd hq (List.not_mem_nil q)
  | cons tr rest ih =>
    intro out q h hq
    rw [trLoop] at h
    split at h
    · exact Except.noConfusion h
    · rename_i out1 hbranch
      split at h
      · exact Except.noConfusion h
      · rename_i out2 hrest
        cases h
        rcases List.mem_append.mp hq with hq1 | hq2
        · by_cases hns : (next == s) = true
          · rw [if_pos hns] at hbranch
            cases hbranch
            have hq' : q = path ++ [⟨c, next, tr⟩] := by simpa using hq1
            subst hq'
            obtain ⟨hvis, hnd, hch, hend⟩ := hInv
            have hnext : next = s := by simpa using hns
            have hndp : (dests path).Nodup := by
              rw [hvis] at hnd; exact hnd.of_cons
            have hsp : s ∉ dests path := by
              rw [hvis] at hnd; exact (List.nodup_cons.mp hnd).1
            refine ⟨⟨[⟨c, next, tr⟩], rfl, by simp⟩, ?_, ?_, ?_, ?_, ?_⟩
            · simp only [List.length_append, List.length_singleton]
              omega
            · exact chainB_append_single _ hch (by simp [hend])
            · rw [dests_append, List.getLast?_concat]
              simp [hnext]
            · rw [dests_append, List.dropLast_concat]
              exact hndp
            · rw [dests_append, List.dropLast_concat]
              exact hsp
          · rw [if_neg hns] at hbranch
            by_cases hvc : vis.contains next = true
            · rw [if_pos hvc] at hbranch
              cases hbranch
              exact absurd hq1 (List.not_mem_nil q)
            · rw [if_neg hvc] at hbranch
              have hns' : (next == s) = false := by simpa using hns
              have hvc' : vis.contains next = false := by simpa using hvc
              exact (hf tr out1 q hns' hvc' hbranch hq1).weaken
        · exact ih out2 q hrest hq2

/-- Every path emitted by the adjacency loop satisfies `GoodExt` for the
loop's call state. -/
theorem adjLoop_good
    (f : String → List PathStep → List String → Except Unit (List (List PathStep)))
    (s c : String) (path : List PathStep) (vis : List String) (d : Nat)
    (hInv : StateInv s c path vis)
    (hf : ∀ next tr out q, (next == s) = false → vis.contains next = false →
      f next (path ++ [⟨c, next, tr⟩]) (vis ++ [next]) = .ok out → q ∈ out →
      GoodExt s (path ++ [⟨c, next, tr⟩]) d q) :
    ∀ (adj : Adj) (out : List (List PathStep)) (q : List PathStep),
      adjLoop f s c path vis adj = .ok out → q ∈ out →
      GoodExt s path (d + 1) q := by
  intro adj
  induction adj with
  | nil =>
    intro out q h hq
    rw [adjLoop] at h
    cases h
    exact absurd hq (List.not_mem_nil q)
  | cons p rest ih =>
    obtain ⟨next, trades⟩ := p
    intro out q h hq
    rw [adjLoop] at h
    split at h
    · exact Except.noConfusion h
    · rename_i out1 h1
      split at h
      · exact Except.noConfusion h
      · rename_i out2 h2
        cases h
        rcases List.mem_append.mp hq with hq1 | hq2
        · exact trLoop_good f s c next path vis d hInv
            (fun tr => hf next tr) trades out1 q h1 hq1
        · exact ih out2 q h2 hq2

/-- Every path emitted by the DFS satisfies `GoodExt` for its call state. -/
theorem dfs_good (g : Graph) (s : String) :
    ∀ (d : Nat) (c : String) (path : List PathStep) (vis : List String),
      StateInv s c path vis →
      ∀ (out : List (List PathStep)) (q : List PathStep),
        dfs g s d c path vis = .ok out → q ∈ out → GoodExt s path d q := by
  intro d
  induction d with
  | zero =>
    intro c path vis _ out q h hq
    rw [dfs] at h
    cases h
    exact absurd hq (List.not_mem_nil q)
  | succ d ih =>
    intro c path vis hInv out q h hq
    rw [dfs] at h
    split at h
    · exact Except.noConfusion h
    · rename_i adj hadj
      refine adjLoop_good (dfs g s d) s c path vis d hInv ?_ adj out q h hq
      intro next tr out' q' hns hvc hcall hq'
      obtain ⟨hvis, hnd, hch, hend⟩ := hInv
      have hnmem : next ∉ vis := by simpa using hvc
      have hInv' : StateInv s next (path ++ [⟨c, next, tr⟩]) (vis ++ [next]) := by
        refine ⟨?_, ?_, ?_, ?_⟩
        · rw [hvis, dests_append]
          simp
        · exact List.Nodup.append hnd (List.nodup_singleton next)
            (fun x hx hx' => absurd ((List.mem_singleton.mp hx') ▸ hx) hnmem)
        · exact chainB_append_single _ hch (by simp [hend])
        · exact pathEnd_append_single s path _
      exact ih next (path ++ [⟨c, next, tr⟩]) (vis ++ [next]) hInv' out' q' hcall hq'

/-- C2.  Every cycle returned by `find_cyclic_paths(start_currency,
max_depth)` is non-empty, begins with an edge whose source currency is
`start_currency`, ends with an edge whose destination currency is
`start_currency`, contains at most `max_depth` edges, and its intermediate
destinations (all but the final one) are pairwise distinct and never equal
to `start_currency` — no currency other than the start appears as a
destination more than once. -/
theorem find_cycles_valid (g : Graph) (s : String) (maxDepth : Nat)
    (ps : List (List PathStep)) (q : List PathStep)
    (h : findCyclicPaths g s maxDepth = .ok ps) (hq : q ∈ ps) :
    q ≠ [] ∧ q.head?.map (·.sourceCurrency) = some s ∧
    (dests q).getLast? = some s ∧ q.length ≤ maxDepth ∧
    ((dests q).dropLast).Nodup ∧ s ∉ (dests q).dropLast := by
  have hInv : StateInv s s [] [s] := ⟨rfl, List.nodup_singleton s, rfl, rfl⟩
  have hg := dfs_good g s maxDepth s [] [s] hInv ps q h hq
  obtain ⟨⟨ext, hqe, hne⟩, hlen, hchain, hlast, hnd, hns⟩ := hg
  have hqne : q ≠ [] := by
    rw [hqe, List.nil_append]
    exact hne
  refine ⟨hqne, ?_, hlast, by simpa using hlen, hnd, hns⟩
  cases hq0 : q with
  | nil => exact absurd hq0 hqne
  | cons st rest =>
    rw [hq0, chainB] at hchain
    simp only [Bool.and_eq_true, beq_iff_eq] at hchain
    simp [hchain.1]

/-- The single cycle of the demonstration graph: `A → B → A`. -/
def demoCycle : List PathStep :=
  [⟨"A", "B", ⟨"X", 1, Side.bid, 2⟩⟩, ⟨"B", "A", ⟨"X", 1, Side.ask, 3⟩⟩]

/-- Witness for C2: on the demonstration graph the search from `A` with
depth 2 returns exactly the cycle `A → B → A`, and the theorem's conclusion
holds for it. -/
theorem find_cycles_valid_witness :
    findCyclicPaths demoGraph "A" 2 = .ok [demoCycle] ∧
    demoCycle ∈ [demoCycle] ∧
    (demoCycle ≠ [] ∧
      demoCycle.head?.map (·.sourceCurrency) = some "A" ∧
      (dests demoCycle).getLast? = some "A" ∧ demoCycle.length ≤ 2 ∧
      ((dests demoCycle).dropLast).Nodup ∧ "A" ∉ (dests demoCycle).dropLast) :=
  ⟨by with_unfolding_all rfl, List.mem_singleton_self demoCycle,
   find_cycles_valid demoGraph "A" 2 [demoCycle] demoCycle
     (by with_unfolding_all rfl) (List.mem_singleton_self demoCycle)⟩

/-- A successful dict lookup comes from an entry of the association list. -/
theorem lookupA_mem {g : Graph} {c : String} {adj : Adj}
    (h : lookupA g c = some adj) : (c, adj) ∈ g := by
  unfold lookupA at h
  simp only [Option.map_eq_some'] at h
  obtain ⟨p, hfind, hp⟩ := h
  obtain ⟨p1, p2⟩ := p
  have h1 : p1 = c := by simpa using List.find?_some hfind
  subst h1
  subst hp
  exact List.mem_of_find?_eq_some hfind

/-- The inner trade loop never errors if the recursive calls it makes never
error. -/
theorem trLoop_ok
    (f : String → List PathStep → List String → Except Unit (List (List PathStep)))
    (s c next : String) (path : List PathStep) (vis : List String)
    (hf : ∀ tr, (next == s) = false → vis.contains next = false →
      ∃ out, f next (path ++ [⟨c, next, tr⟩]) (vis ++ [next]) = .ok out) :
    ∀ l, ∃ out, trLoop f s c next path vis l = .ok out := by
  intro l
  induction l with
  | nil => exact ⟨[], rfl⟩
  | cons tr rest ih =>
    obtain ⟨out2, h2⟩ := ih
    by_cases hns : (next == s) = true
    · exact ⟨_, by rw [trLoop, if_pos hns, h2]⟩
    · by_cases hvc : vis.contains next = true
      · exact ⟨_, by rw [trLoop, if_neg hns, if_pos hvc, h2]⟩
      · obtain ⟨out1, h1⟩ := hf tr (by simpa using hns) (by simpa using hvc)
        exact ⟨_, by rw [trLoop, if_neg hns, if_neg hvc, h1, h2]⟩

/-- The adjacency loop never errors if recursive calls on its entries never
error. -/
theorem adjLoop_ok
    (f : String → List PathStep → List String → Except Unit (List (List PathStep)))
    (s c : String) (path : List PathStep) (vis : List String) :
    ∀ adj : Adj,
      (∀ next trades, (next, trades) ∈ adj → ∀ tr,
        (next == s) = false → vis.contains next = false →
        ∃ out, f next (path ++ [⟨c, next, tr⟩]) (vis ++ [next]) = .ok out) →
      ∃ out, adjLoop f s c path vis adj = .ok out := by
  intro adj
  induction adj with
  | nil => exact fun _ => ⟨[], rfl⟩
  | cons p rest ih =>
    intro hf
    obtain ⟨next, trades⟩ := p
    obtain ⟨out1, h1⟩ := trLoop_ok f s c next path vis
      (hf next trades (List.mem_cons_self _ _)) trades
    obtain ⟨out2, h2⟩ := ih
      (fun n t hm => hf n t (List.mem_cons_of_mem _ hm))
    exact ⟨_, by rw [adjLoop, h1, h2]⟩

/-- On a destination-closed graph, the DFS never errors when the current
currency has a node. -/
theorem dfs_ok (g : Graph) (s : String)
    (hclosed : ∀ p ∈ g, ∀ e ∈ p.2, (lookupA g e.1).isSome = true) :
    ∀ (d : Nat) (c : String) (path : List PathStep) (vis : List String),
      (lookupA g c).isSome = true →
      ∃ out, dfs g s d c path vis = .ok out := by
  intro d
  induction d with
  | zero => exact fun c path vis _ => ⟨[], rfl⟩
  | succ d ih =>
    intro c path vis hc
    obtain ⟨adj, hadj⟩ := Option.isSome_iff_exists.mp hc
    have hf : ∀ next trades, (next, trades) ∈ adj → ∀ tr,
        (next == s) = false → vis.contains next = false →
        ∃ out, dfs g s d next (path ++ [⟨c, next, tr⟩]) (vis ++ [next]) = .ok out := by
      intro next trades hm tr _ _
      exact ih next (path ++ [⟨c, next, tr⟩]) (vis ++ [next])
        (hclosed (c, adj) (lookupA_mem hadj) (next, trades) hm)
    obtain ⟨out, hout⟩ := adjLoop_ok (dfs g s d) s c path vis adj hf
    refine ⟨out, ?_⟩
    rw [dfs, hadj]
    exact hout

/-- C9 (amended).  During traversal a missing edge simply contributes no
routes: on any graph in which every edge destination has a node (as is the
case for graphs produced by `build_graph`), `find_cyclic_paths` returns
without error whenever `start_currency` has a node.  However — per the
counterexample — a `start_currency` with NO node raises `KeyError`, and a
route leg whose direct and reversed orderbooks are both missing raises
`IndexError` in the evaluator, aborting the pass. -/
theorem find_cycles_ok_of_closed (g : Graph) (s : String) (maxDepth : Nat)
    (hs : (lookupA g s).isSome = true)
    (hclosed : ∀ p ∈ g, ∀ e ∈ p.2, (lookupA g e.1).isSome = true) :
    ∃ ps, findCyclicPaths g s maxDepth = .ok ps :=
  dfs_ok g s hclosed maxDepth s [] [s] hs

/-- Witness for the amended C9 theorem on the demonstration graph. -/
theorem find_cycles_ok_of_closed_witness :
    (lookupA demoGraph "A").isSome = true ∧
    (∀ p ∈ demoGraph, ∀ e ∈ p.2, (lookupA demoGraph e.1).isSome = true) ∧
    ∃ ps, findCyclicPaths demoGraph "A" 2 = .ok ps :=
  ⟨by with_unfolding_all decide, by with_unfolding_all decide,
   find_cycles_ok_of_closed demoGraph "A" 2 (by with_unfolding_all decide)
     (by with_unfolding_all decide)⟩

/-- A selection pulls one element out of the list, up to permutation. -/
theorem selections_perm {α : Type u} {x : α} {rest l : List α}
    (h : (x, rest) ∈ selections l) : l.Perm (x :: rest) := by
  induction l generalizing x rest with
  | nil => simp [selections] at h
  | cons y ys ih =>
    rw [selections] at h
    rcases List.mem_cons.mp h with heq | hmem
    · injection heq with h1 h2
      subst h1
      subst h2
      exact List.Perm.refl _
    · rw [List.mem_map] at hmem
      obtain ⟨⟨x2, rest2⟩, hmem', heq⟩ := hmem
      cases heq
      exact ((ih hmem').cons y).trans (List.Perm.swap x2 y rest2)

/-- Every member of the list can be selected, leaving a permuted remainder. -/
theorem selections_mem_of_mem {α : Type u} {x : α} {l : List α} (h : x ∈ l) :
    ∃ rest, (x, rest) ∈ selections l ∧ l.Perm (x :: rest) := by
  induction l with
  | nil => simp at h
  | cons y ys ih =>
    rcases List.mem_cons.mp h with rfl | hmem
    · exact ⟨ys, by rw [selections]; exact List.mem_cons_self _ _,
        List.Perm.refl _⟩
    · obtain ⟨rest, hmem', hperm⟩ := ih hmem
      refine ⟨y :: rest, ?_, ?_⟩
      · rw [selections]
        exact List.mem_cons_of_mem _ (List.mem_map.mpr ⟨(x, rest), hmem', rfl⟩)
      · exact (hperm.cons y).trans (List.Perm.swap x y rest)

/-- Characterization of `itertools.permutations(l, n)` membership: the
length-`n` tuples of elements of `l` drawn at distinct positions are exactly
the length-`n` lists that are a permutation of a sub-multiset of `l`. -/
theorem arrangements_mem {α : Type u} (n : Nat) :
    ∀ (l r : List α), r ∈ arrangements n l ↔
      r.length = n ∧ List.Subperm r l := by
  induction n with
  | zero =>
    intro l r
    rw [arrangements]
    constructor
    · intro h
      have hr : r = [] := by simpa using h
      subst hr
      exact ⟨rfl, List.nil_subperm⟩
    · rintro ⟨hlen, _⟩
      have hr : r = [] := List.length_eq_zero.mp hlen
      subst hr
      simp
  | succ n ih =>
    intro l r
    rw [arrangements]
    constructor
    · intro h
      rw [List.mem_flatMap] at h
      obtain ⟨⟨x, rest⟩, hp, hr⟩ := h
      rw [List.mem_map] at hr
      obtain ⟨t, ht, rfl⟩ := hr
      obtain ⟨hlen, hsub⟩ := (ih rest t).mp ht
      refine ⟨by simp [hlen], ?_⟩
      exact ((List.subperm_cons x).mpr hsub).trans
        (selections_perm hp).symm.subperm
    · rintro ⟨hlen, hsub⟩
      cases r with
      | nil => simp at hlen
      | cons x t =>
        have hx : x ∈ l := hsub.subset (List.mem_cons_self x t)
        obtain ⟨rest, hmem, hperm⟩ := selections_mem_of_mem hx
        have h2 : List.Subperm t rest :=
          (List.subperm_cons x).mp (hsub.trans hperm.subperm)
        rw [List.mem_flatMap]
        refine ⟨(x, rest), hmem, ?_⟩
        rw [List.mem_map]
        exact ⟨t, (ih rest t).mpr ⟨by simpa using hlen, h2⟩, rfl⟩

/-- C3 (amended).  `get_all_routes` returns exactly the length-`n`
arrangements (orderings of distinct positional entries, `n` = the number of
declared pairs) of the declared pairs and their reversed forms that differ
from the caller's original pair at EVERY position and whose FIRST pair's
base currency equals the LAST pair's quote currency.  Intermediate base/quote
chaining is not checked, and any ordering that coincides with the original
list at even one position is excluded. -/
theorem get_all_routes_mem (symbols : List Symbol) (r : List Symbol) :
    r ∈ getAllRoutes symbols ↔
      (r.length = symbols.length ∧
       List.Subperm r (symbols ++ getReversedSymbols symbols) ∧
       (∀ p ∈ r.zip symbols, p.1 ≠ p.2) ∧
       (∃ f ls, r.head? = some f ∧ r.getLast? = some ls ∧
         f.base = ls.quote)) := by
  unfold getAllRoutes
  rw [List.mem_filter, arrangements_mem]
  unfold routePasses
  constructor
  · rintro ⟨⟨hlen, hsub⟩, hpass⟩
    rw [Bool.and_eq_true] at hpass
    obtain ⟨hall, hmatch⟩ := hpass
    refine ⟨hlen, hsub, ?_, ?_⟩
    · intro p hp
      simpa using List.all_eq_true.mp hall p hp
    · cases hh : r.head? with
      | none =>
        cases hl : r.getLast? with
        | none => rw [hh, hl] at hmatch; exact absurd hmatch (by simp)
        | some ls => rw [hh, hl] at hmatch; exact absurd hmatch (by simp)
      | some f =>
        cases hl : r.getLast? with
        | none => rw [hh, hl] at hmatch; exact absurd hmatch (by simp)
        | some ls =>
          rw [hh, hl] at hmatch
          exact ⟨f, ls, rfl, rfl, by simpa using hmatch⟩
  · rintro ⟨hlen, hsub, hall, f, ls, hh, hl, hfl⟩
    refine ⟨⟨hlen, hsub⟩, ?_⟩
    rw [Bool.and_eq_true]
    refine ⟨List.all_eq_true.mpr (fun p hp => by simpa using hall p hp), ?_⟩
    rw [hh, hl]
    simpa using hfl

/-- The three-pair symbol list used to refute the chaining half of C3. -/
def cxSymbols3 : List Symbol := [⟨"A", "B"⟩, ⟨"C", "D"⟩, ⟨"E", "A"⟩]

/-- The two-pair symbol list used to refute the exclusion half of C3. -/
def cxSymbols2 : List Symbol := [⟨"A", "B"⟩, ⟨"C", "A"⟩]

/-- Modelled from the spec: a closed-loop ordering — each pair's quote
currency equals the next pair's base currency and the last pair's quote
currency equals the first pair's base currency.  (The source checks only
the first-base/last-quote condition; this definition exists to state what
the claim requires.) -/
def specChained : List Symbol → Bool
  | [] => true
  | [_] => true
  | a :: b :: rest => (a.quote == b.base) && specChained (b :: rest)

/-- Modelled from the spec: the full closed-loop condition of C3. -/
def specChainedLoop (r : List Symbol) : Bool :=
  specChained r &&
    match r.head?, r.getLast? with
    | some f, some ls => ls.quote == f.base
    | _, _ => false

/-- C3 counterexample, refuting both halves of the claim.  First half: on
declared pairs `[A/B, C/D, E/A]` the ordering `[B/A, D/C, A/B]` IS returned
although its chained currencies do not form a closed loop (`B/A`'s quote `A`
is not `D/C`'s base `D`) — only first-base = last-quote is checked.  Second
half: on declared pairs `[A/B, C/A]` the ordering `[A/B, B/A]` is a genuine
closed-loop ordering of the declared pairs and their reversals and differs
from the original ordering, yet it is NOT returned, because it coincides
with the original at position 0. -/
theorem route_enumerator_counterexample :
    ([⟨"B", "A"⟩, ⟨"D", "C"⟩, ⟨"A", "B"⟩] ∈ getAllRoutes cxSymbols3 ∧
      specChainedLoop [⟨"B", "A"⟩, ⟨"D", "C"⟩, ⟨"A", "B"⟩] = false) ∧
    (specChainedLoop [⟨"A", "B"⟩, ⟨"B", "A"⟩] = true ∧
      [⟨"A", "B"⟩, ⟨"B", "A"⟩] ∈
        arrangements cxSymbols2.length (cxSymbols2 ++ getReversedSymbols cxSymbols2) ∧
      [⟨"A", "B"⟩, ⟨"B", "A"⟩] ≠ cxSymbols2 ∧
      [⟨"A", "B"⟩, ⟨"B", "A"⟩] ∉ getAllRoutes cxSymbols2) := by
  refine ⟨⟨by decide, by decide⟩, by decide, by decide, by decide, by decide⟩

end GoldenMerchant
